import Mathlib

/-!
Shallow embedding of `cloudnode-pro/ratelimit` (`src/RateLimit.ts`).

The repository implements named, in-process fixed-window rate limiters:
a process-wide registry `Map<string, RateLimit>` of limiter instances,
each owning a counter store `Map<string, [count, windowStart]>`.

Modelling choices:
* JS `Map<string, α>` is an association list with JS `Map` semantics:
  `mapGet` returns the binding, `mapSet` updates in place or appends,
  `mapDelete` removes the binding.
* JS numbers are `Int` (all quantities in the claims are integers);
  timestamps (`Date.now()`) are epoch milliseconds, passed explicitly as
  a `now : Int` argument to every operation (single-threaded execution,
  one timestamp per synchronous call).
* Methods on the mutable `this` become state-passing functions returning
  the updated `Limiter`; `throw` becomes `Except.error` with the error
  kind named by the spec (`DuplicateName`, `UnknownName`,
  `DeletedInstance`).
* Object identity: instances live in a `heap : List Limiter` indexed by
  allocation order; the registry maps names to heap indices.
-/

namespace RL

/-- Error kinds of the library (spec §7): the source throws `Error`s with
distinguishing messages; we name the three kinds. -/
inductive RLError where
  | DuplicateName
  | UnknownName
  | DeletedInstance
deriving Repr, DecidableEq

/-- Result type `AttemptResult` (src/AttemptResult.ts): outcome of a check/attempt.
The `rateLimit` back-reference is represented at the call sites (the
limiter the operation ran on) rather than stored. -/
structure AttemptResult where
  limit : Int
  remaining : Int
  reset : Int
  allow : Bool
deriving Repr, DecidableEq

/-- One rate limiter instance: fields `name`, `limit`, `timeWindow`
(seconds), the private `#deleted` flag and the private `#attempts` map
from source id to `[count, windowStart]`. -/
structure Limiter where
  name : String
  limit : Int
  timeWindow : Int
  deleted : Bool
  attempts : List (String × (Int × Int))
deriving Repr, DecidableEq

/-- JS `Map.get`: the value bound to `k`, if any. -/
def mapGet {α : Type} : List (String × α) → String → Option α
  | [], _ => none
  | (k', v) :: rest, k => if k' = k then some v else mapGet rest k

/-- JS `Map.set`: replace the binding of `k` in place, or append it. -/
def mapSet {α : Type} : List (String × α) → String → α → List (String × α)
  | [], k, v => [(k, v)]
  | (k', v') :: rest, k, v =>
    if k' = k then (k, v) :: rest else (k', v') :: mapSet rest k v

/-- JS `Map.delete`: remove the binding of `k`. -/
def mapDelete {α : Type} : List (String × α) → String → List (String × α)
  | [], _ => []
  | (k', v') :: rest, k =>
    if k' = k then mapDelete rest k else (k', v') :: mapDelete rest k

/-- Integer form of `Math.ceil(a / b)` for integer `a`, positive integer `b` (the source
divides by 1000 to convert milliseconds to seconds). -/
def ceilDiv (a b : Int) : Int := -(Int.ediv (-a) b)

/-- Method `RateLimit.prototype.check` (RateLimit.ts:69-83): read the entry (or
a fresh `[0, now]`), compute `remaining`, `reset`, `allow`; throws
`DeletedInstance` first. Returns the (unchanged) instance next to the
result, state-passing style. -/
def check (l : Limiter) (source : String) (now : Int) :
    Except RLError (Limiter × AttemptResult) :=
  if l.deleted then .error .DeletedInstance
  else
    let attempts := (mapGet l.attempts source).getD (0, now)
    let remaining := l.limit - attempts.1
    let reset := ceilDiv (attempts.2 + l.timeWindow * 1000 - now) 1000
    .ok (l, { limit := l.limit, remaining := remaining, reset := reset,
              allow := remaining > 0 })

/-- Method `RateLimit.prototype.attempt` (RateLimit.ts:92-104): load the entry
(or `[0, now]`); if the window expired (`windowStart + timeWindow*1000 <
now`) reset it to `[0, now]`; add the weight to the count; store; return
`check(source)` on the updated instance. -/
def attempt (l : Limiter) (source : String) (w : Int) (now : Int) :
    Except RLError (Limiter × AttemptResult) :=
  if l.deleted then .error .DeletedInstance
  else
    let data := (mapGet l.attempts source).getD (0, now)
    let data := if data.2 + l.timeWindow * 1000 < now then ((0 : Int), now) else data
    let data := (data.1 + w, data.2)
    let l' : Limiter := { l with attempts := mapSet l.attempts source data }
    check l' source now

/-- Method `RateLimit.prototype.reset` (RateLimit.ts:111-114): drop the entry. -/
def reset (l : Limiter) (source : String) : Except RLError Limiter :=
  if l.deleted then .error .DeletedInstance
  else .ok { l with attempts := mapDelete l.attempts source }

/-- Method `RateLimit.prototype.setRemaining` (RateLimit.ts:123-128): load the
entry (or `[0, now]`), set its count to `limit - remaining`, store. -/
def setRemaining (l : Limiter) (source : String) (remaining : Int) (now : Int) :
    Except RLError Limiter :=
  if l.deleted then .error .DeletedInstance
  else
    let data := (mapGet l.attempts source).getD (0, now)
    .ok { l with attempts := mapSet l.attempts source (l.limit - remaining, data.2) }

/-- Method `RateLimit.prototype.clear` (RateLimit.ts:134-137): empty the map. -/
def clear (l : Limiter) : Except RLError Limiter :=
  if l.deleted then .error .DeletedInstance
  else .ok { l with attempts := [] }

/-- Method `RateLimit.prototype.cleanup` (RateLimit.ts:143-149). The source
iterates `for (const [source, [attempts]] of this.#attempts)` — the
destructured `attempts` is element 0 of the entry, i.e. the COUNT — and
deletes entries with `attempts + timeWindow*1000 < now`. Embedded
faithfully: the filter tests the count, not the window start. -/
def cleanup (l : Limiter) (now : Int) : Except RLError Limiter :=
  if l.deleted then .error .DeletedInstance
  else .ok { l with attempts :=
    l.attempts.filter fun e => !decide (e.2.1 + l.timeWindow * 1000 < now) }

/-- Lookup in the instance heap by allocation index. -/
def heapGet : List Limiter → Nat → Option Limiter
  | [], _ => none
  | l :: _, 0 => some l
  | _ :: rest, n + 1 => heapGet rest n

/-- Update the instance heap at an allocation index. -/
def heapSet : List Limiter → Nat → Limiter → List Limiter
  | [], _, _ => []
  | _ :: rest, 0, x => x :: rest
  | l :: rest, n + 1, x => l :: heapSet rest n x

/-- Global mutable state: all instances ever constructed (`heap`, indexed
by allocation order — live references to deleted limiters persist) and
the static registry `RateLimit.#instances` mapping names to instances. -/
structure GState where
  heap : List Limiter
  registry : List (String × Nat)
deriving Repr, DecidableEq

/-- Static `RateLimit.get` (static, RateLimit.ts:167-169): registry lookup,
`null` (here `none`) when absent. -/
def getStatic (s : GState) (name : String) : Option Nat :=
  mapGet s.registry name

/-- Constructor `new RateLimit(name, limit, timeWindow)` (RateLimit.ts:55-61): throws
`DuplicateName` if the name is registered (`#instances.has(name)`);
otherwise allocates a fresh instance and registers it. Returns the new
state and the instance id. -/
def construct (s : GState) (name : String) (limit timeWindow : Int) :
    Except RLError (GState × Nat) :=
  match mapGet s.registry name with
  | some _ => .error .DuplicateName
  | none =>
    let id := s.heap.length
    .ok ({ heap := s.heap ++ [{ name := name, limit := limit,
                                timeWindow := timeWindow, deleted := false,
                                attempts := [] }],
           registry := mapSet s.registry name id }, id)

/-- Static `RateLimit.create` (static, RateLimit.ts:280-284): return the
registered instance if the name exists, else construct a new one. -/
def create (s : GState) (name : String) (limit timeWindow : Int) :
    Except RLError (GState × Nat) :=
  match getStatic s name with
  | some id => .ok (s, id)
  | none => construct s name limit timeWindow

/-- Run a mutating instance method on the heap cell `id`. An out-of-range
`id` yields `UnknownName`; this case is unreachable for ids obtained from
`construct`/`create`/`getStatic`. -/
def modAt (s : GState) (id : Nat) (f : Limiter → Except RLError Limiter) :
    Except RLError GState :=
  match heapGet s.heap id with
  | none => .error .UnknownName
  | some l => (f l).map fun l' => { s with heap := heapSet s.heap id l' }

/-- Runs `check` on the instance at `id`. -/
def checkAt (s : GState) (id : Nat) (source : String) (now : Int) :
    Except RLError (GState × AttemptResult) :=
  match heapGet s.heap id with
  | none => .error .UnknownName
  | some l =>
    (check l source now).map fun p => ({ s with heap := heapSet s.heap id p.1 }, p.2)

/-- Runs `attempt` on the instance at `id`. -/
def attemptAt (s : GState) (id : Nat) (source : String) (w : Int) (now : Int) :
    Except RLError (GState × AttemptResult) :=
  match heapGet s.heap id with
  | none => .error .UnknownName
  | some l =>
    (attempt l source w now).map fun p =>
      ({ s with heap := heapSet s.heap id p.1 }, p.2)

/-- Runs `reset` on the instance at `id`. -/
def resetAt (s : GState) (id : Nat) (source : String) : Except RLError GState :=
  modAt s id fun l => reset l source

/-- Runs `setRemaining` on the instance at `id`. -/
def setRemainingAt (s : GState) (id : Nat) (source : String) (r now : Int) :
    Except RLError GState :=
  modAt s id fun l => setRemaining l source r now

/-- Runs `clear` on the instance at `id`. -/
def clearAt (s : GState) (id : Nat) : Except RLError GState :=
  modAt s id clear

/-- Runs `cleanup` on the instance at `id`. -/
def cleanupAt (s : GState) (id : Nat) (now : Int) : Except RLError GState :=
  modAt s id fun l => cleanup l now

/-- Method `RateLimit.prototype.delete` (RateLimit.ts:155-159): runs
`this.clear()` (which throws `DeletedInstance` if already deleted), sets
`#deleted = true`, and removes `this.name` from the registry. -/
def deleteInst (s : GState) (id : Nat) : Except RLError GState :=
  match heapGet s.heap id with
  | none => .error .UnknownName
  | some l =>
    (clear l).map fun l' =>
      { heap := heapSet s.heap id { l' with deleted := true },
        registry := mapDelete s.registry l.name }

/-- Static `RateLimit.check` (static, RateLimit.ts:180-184): resolve the name
(`UnknownName` if absent), delegate to the instance method. -/
def checkStatic (s : GState) (name source : String) (now : Int) :
    Except RLError (GState × AttemptResult) :=
  match getStatic s name with
  | none => .error .UnknownName
  | some id => checkAt s id source now

/-- Static `RateLimit.attempt` (static, RateLimit.ts:196-200). -/
def attemptStatic (s : GState) (name source : String) (w : Int) (now : Int) :
    Except RLError (GState × AttemptResult) :=
  match getStatic s name with
  | none => .error .UnknownName
  | some id => attemptAt s id source w now

/-- Static `RateLimit.reset` (static, RateLimit.ts:210-214). -/
def resetStatic (s : GState) (name source : String) : Except RLError GState :=
  match getStatic s name with
  | none => .error .UnknownName
  | some id => resetAt s id source

/-- Static `RateLimit.setRemaining` (static, RateLimit.ts:226-230). -/
def setRemainingStatic (s : GState) (name source : String) (r now : Int) :
    Except RLError GState :=
  match getStatic s name with
  | none => .error .UnknownName
  | some id => setRemainingAt s id source r now

/-- Static `RateLimit.clear` (static, RateLimit.ts:239-243). -/
def clearStatic (s : GState) (name : String) : Except RLError GState :=
  match getStatic s name with
  | none => .error .UnknownName
  | some id => clearAt s id

/-- Static `RateLimit.cleanup(name)` (static with a name, RateLimit.ts:250-255). -/
def cleanupStatic (s : GState) (name : String) (now : Int) : Except RLError GState :=
  match getStatic s name with
  | none => .error .UnknownName
  | some id => cleanupAt s id now

/-- Static `RateLimit.delete` (static, RateLimit.ts:266-270). -/
def deleteStatic (s : GState) (name : String) : Except RLError GState :=
  match getStatic s name with
  | none => .error .UnknownName
  | some id => deleteInst s id

/-- Static `RateLimit.cleanup()` with no name (RateLimit.ts:256): iterate the
registered instances and run `cleanup` on each. -/
def cleanupAll (s : GState) (now : Int) : Except RLError GState :=
  (s.registry.map Prod.snd).foldlM (fun st id => cleanupAt st id now) s

/-- The initial global state: no instances, empty registry. -/
def initState : GState := { heap := [], registry := [] }

/-- States reachable from process start by the public API: construction
(`new`/`create`), the instance methods (on any live reference, registered
or not), and the static operations (which delegate to the instance
methods, see the C8 theorem — the delegating statics are therefore
covered by the instance steps, except the no-name `cleanupAll`). -/
inductive Reachable : GState → Prop where
  | init : Reachable initState
  | construct {s s' : GState} {n : String} {lim tw : Int} {id : Nat} :
      Reachable s → construct s n lim tw = .ok (s', id) → Reachable s'
  | create {s s' : GState} {n : String} {lim tw : Int} {id : Nat} :
      Reachable s → create s n lim tw = .ok (s', id) → Reachable s'
  | checkAt {s s' : GState} {id : Nat} {src : String} {now : Int} {r : AttemptResult} :
      Reachable s → checkAt s id src now = .ok (s', r) → Reachable s'
  | attemptAt {s s' : GState} {id : Nat} {src : String} {w now : Int} {r : AttemptResult} :
      Reachable s → attemptAt s id src w now = .ok (s', r) → Reachable s'
  | resetAt {s s' : GState} {id : Nat} {src : String} :
      Reachable s → resetAt s id src = .ok s' → Reachable s'
  | setRemainingAt {s s' : GState} {id : Nat} {src : String} {r now : Int} :
      Reachable s → setRemainingAt s id src r now = .ok s' → Reachable s'
  | clearAt {s s' : GState} {id : Nat} :
      Reachable s → clearAt s id = .ok s' → Reachable s'
  | cleanupAt {s s' : GState} {id : Nat} {now : Int} :
      Reachable s → cleanupAt s id now = .ok s' → Reachable s'
  | deleteInst {s s' : GState} {id : Nat} :
      Reachable s → deleteInst s id = .ok s' → Reachable s'
  | cleanupAll {s s' : GState} {now : Int} :
      Reachable s → cleanupAll s now = .ok s' → Reachable s'

/-! ### Association-list (JS `Map`) lemmas -/

theorem mapGet_mapSet_self {α : Type} (m : List (String × α)) (k : String) (v : α) :
    mapGet (mapSet m k v) k = some v := by
  induction m with
  | nil => simp [mapSet, mapGet]
  | cons hd tl ih =>
    obtain ⟨k', v'⟩ := hd
    by_cases h : k' = k
    · simp [mapSet, h, mapGet]
    · simp [mapSet, h, mapGet, ih]

theorem mapGet_mapSet_ne {α : Type} (m : List (String × α)) {k k' : String} (v : α)
    (h : k' ≠ k) : mapGet (mapSet m k v) k' = mapGet m k' := by
  induction m with
  | nil => simp [mapSet, mapGet, if_neg (Ne.symm h)]
  | cons hd tl ih =>
    obtain ⟨k₀, v₀⟩ := hd
    by_cases h₀ : k₀ = k
    · subst h₀
      simp only [mapSet, if_pos rfl, mapGet]
      rw [if_neg (Ne.symm h), if_neg (Ne.symm h)]
    · simp only [mapSet, if_neg h₀, mapGet]
      by_cases h₁ : k₀ = k'
      · rw [if_pos h₁, if_pos h₁]
      · rw [if_neg h₁, if_neg h₁, ih]

theorem mapGet_mapDelete_self {α : Type} (m : List (String × α)) (k : String) :
    mapGet (mapDelete m k) k = none := by
  induction m with
  | nil => simp [mapDelete, mapGet]
  | cons hd tl ih =>
    obtain ⟨k', v'⟩ := hd
    by_cases h : k' = k
    · simp [mapDelete, h, ih]
    · simp [mapDelete, h, mapGet, ih]

theorem mapGet_mapDelete_ne {α : Type} (m : List (String × α)) {k k' : String}
    (h : k' ≠ k) : mapGet (mapDelete m k) k' = mapGet m k' := by
  induction m with
  | nil => simp [mapDelete]
  | cons hd tl ih =>
    obtain ⟨k₀, v₀⟩ := hd
    by_cases h₀ : k₀ = k
    · subst h₀
      simp [mapDelete, mapGet, if_neg (Ne.symm h), ih]
    · simp only [mapDelete, if_neg h₀, mapGet]
      by_cases h₁ : k₀ = k'
      · rw [if_pos h₁, if_pos h₁]
      · rw [if_neg h₁, if_neg h₁, ih]

theorem mapSet_absent {α : Type} (m : List (String × α)) (k : String) (v : α)
    (h : mapGet m k = none) : mapSet m k v = m ++ [(k, v)] := by
  induction m with
  | nil => simp [mapSet]
  | cons hd tl ih =>
    obtain ⟨k', v'⟩ := hd
    by_cases h' : k' = k
    · simp [mapGet, h'] at h
    · simp only [mapGet, if_neg h'] at h
      simp [mapSet, h', ih h]

theorem mapGet_none_not_mem {α : Type} (m : List (String × α)) (k : String)
    (h : mapGet m k = none) : k ∉ m.map Prod.fst := by
  induction m with
  | nil => simp
  | cons hd tl ih =>
    obtain ⟨k', v'⟩ := hd
    by_cases h' : k' = k
    · simp [mapGet, h'] at h
    · simp only [mapGet, if_neg h'] at h
      simp only [List.map_cons]
      intro hmem
      rcases List.mem_cons.mp hmem with hk | hk
      · exact h' hk.symm
      · exact ih h hk

theorem keys_nodup_mapSet_absent {α : Type} (m : List (String × α)) (k : String) (v : α)
    (h : mapGet m k = none) (hn : (m.map Prod.fst).Nodup) :
    ((mapSet m k v).map Prod.fst).Nodup := by
  rw [mapSet_absent m k v h]
  simp only [List.map_append, List.map_cons, List.map_nil]
  rw [List.nodup_append]
  exact ⟨hn, List.nodup_singleton k,
    fun a ha hb => by
      simp only [List.mem_singleton] at hb
      exact mapGet_none_not_mem m k h (hb ▸ ha)⟩

theorem keys_mapDelete_sublist {α : Type} (m : List (String × α)) (k : String) :
    ((mapDelete m k).map Prod.fst).Sublist (m.map Prod.fst) := by
  induction m with
  | nil => simp [mapDelete]
  | cons hd tl ih =>
    obtain ⟨k', v'⟩ := hd
    by_cases h : k' = k
    · simp only [mapDelete, if_pos h, List.map_cons]
      exact ih.trans (List.sublist_cons_self _ _)
    · simp only [mapDelete, if_neg h, List.map_cons]
      exact ih.cons₂ _

theorem keys_nodup_mapDelete {α : Type} (m : List (String × α)) (k : String)
    (hn : (m.map Prod.fst).Nodup) : ((mapDelete m k).map Prod.fst).Nodup :=
  hn.sublist (keys_mapDelete_sublist m k)

theorem mem_mapGet {α : Type} {m : List (String × α)} {k : String} {v : α}
    (hn : (m.map Prod.fst).Nodup) (h : (k, v) ∈ m) : mapGet m k = some v := by
  induction m with
  | nil => simp at h
  | cons hd tl ih =>
    obtain ⟨k', v'⟩ := hd
    simp only [List.map_cons, List.nodup_cons] at hn
    rcases List.mem_cons.mp h with h₀ | h₀
    · obtain ⟨rfl, rfl⟩ := Prod.mk.injEq .. ▸ h₀
      simp_all [mapGet]
    · have hne : k' ≠ k := by
        rintro rfl
        exact hn.1 (List.mem_map.mpr ⟨(k', v), h₀, rfl⟩)
      simp [mapGet, hne, ih hn.2 h₀]

/-! ### Heap lemmas -/

theorem heapGet_heapSet_self : ∀ (hp : List Limiter) (i : Nat) (l x : Limiter),
    heapGet hp i = some l → heapGet (heapSet hp i x) i = some x
  | [], i, l, x, h => by simp [heapGet] at h
  | _ :: rest, 0, l, x, _ => rfl
  | y :: rest, i + 1, l, x, h => heapGet_heapSet_self rest i l x h

theorem heapGet_heapSet_ne : ∀ (hp : List Limiter) (i j : Nat) (x : Limiter),
    i ≠ j → heapGet (heapSet hp i x) j = heapGet hp j
  | [], _, _, _, _ => rfl
  | y :: rest, 0, 0, x, h => absurd rfl h
  | y :: rest, 0, j + 1, x, _ => rfl
  | y :: rest, i + 1, 0, x, _ => rfl
  | y :: rest, i + 1, j + 1, x, h =>
    heapGet_heapSet_ne rest i j x (fun he => h (he ▸ rfl))

theorem heapGet_append : ∀ (hp : List Limiter) (i : Nat) (l x : Limiter),
    heapGet hp i = some l → heapGet (hp ++ [x]) i = some l
  | [], i, l, x, h => by simp [heapGet] at h
  | y :: rest, 0, l, x, h => h
  | y :: rest, i + 1, l, x, h => heapGet_append rest i l x h

theorem heapGet_length : ∀ (hp : List Limiter) (x : Limiter),
    heapGet (hp ++ [x]) hp.length = some x
  | [], x => rfl
  | y :: rest, x => heapGet_length rest x

theorem heapGet_append_cases : ∀ (hp : List Limiter) (i : Nat) (m x : Limiter),
    heapGet (hp ++ [x]) i = some m →
    heapGet hp i = some m ∨ (i = hp.length ∧ m = x)
  | [], 0, m, x, h => Or.inr ⟨rfl, (Option.some.injEq .. ▸ h).symm⟩
  | [], i + 1, m, x, h => by simp [heapGet] at h
  | y :: rest, 0, m, x, h => Or.inl h
  | y :: rest, i + 1, m, x, h => by
    rcases heapGet_append_cases rest i m x h with h₀ | ⟨rfl, rfl⟩
    · exact Or.inl h₀
    · exact Or.inr ⟨rfl, rfl⟩

theorem heapSet_same : ∀ (hp : List Limiter) (i : Nat) (l : Limiter),
    heapGet hp i = some l → heapSet hp i l = hp
  | [], i, l, h => by simp [heapGet] at h
  | y :: rest, 0, l, h => by
    simp only [heapGet, Option.some.injEq] at h
    rw [heapSet, h]
  | y :: rest, i + 1, l, h => by
    rw [heapSet, heapSet_same rest i l h]

/-! ### Basic facts about the instance operations -/

theorem check_ok {l : Limiter} (source : String) (now : Int)
    (h : l.deleted = false) :
    check l source now = .ok (l,
      { limit := l.limit,
        remaining := l.limit - ((mapGet l.attempts source).getD (0, now)).1,
        reset := ceilDiv (((mapGet l.attempts source).getD (0, now)).2
                           + l.timeWindow * 1000 - now) 1000,
        allow := l.limit - ((mapGet l.attempts source).getD (0, now)).1 > 0 }) := by
  unfold check
  rw [if_neg (by simp [h])]

theorem check_inv {l l' : Limiter} {r : AttemptResult} {source : String} {now : Int}
    (h : check l source now = .ok (l', r)) : l' = l := by
  unfold check at h
  split at h
  · exact Except.noConfusion h
  · simp only [Except.ok.injEq, Prod.mk.injEq] at h
    exact h.1.symm

theorem check_deleted {l : Limiter} (source : String) (now : Int)
    (h : l.deleted = true) : check l source now = .error .DeletedInstance := by
  unfold check
  rw [if_pos h]

theorem attempt_eq {l : Limiter} (source : String) (w now : Int)
    (h : l.deleted = false) :
    attempt l source w now =
      check { l with attempts := (mapSet l.attempts source
        (((if ((mapGet l.attempts source).getD (0, now)).2 + l.timeWindow * 1000 < now
            then ((0 : Int), now)
            else (mapGet l.attempts source).getD (0, now)).1 + w,
          (if ((mapGet l.attempts source).getD (0, now)).2 + l.timeWindow * 1000 < now
            then ((0 : Int), now)
            else (mapGet l.attempts source).getD (0, now)).2))) } source now := by
  unfold attempt
  rw [if_neg (by simp [h])]

theorem attempt_deleted {l : Limiter} (source : String) (w now : Int)
    (h : l.deleted = true) : attempt l source w now = .error .DeletedInstance := by
  unfold attempt
  rw [if_pos h]

theorem attempt_pres {l l' : Limiter} {r : AttemptResult} {source : String} {w now : Int}
    (h : attempt l source w now = .ok (l', r)) :
    l'.name = l.name ∧ l'.deleted = l.deleted ∧ l'.limit = l.limit ∧
    l'.timeWindow = l.timeWindow := by
  unfold attempt at h
  split at h
  · exact Except.noConfusion h
  · rw [check_inv h]
    exact ⟨rfl, rfl, rfl, rfl⟩

theorem reset_pres {l l' : Limiter} {source : String}
    (h : reset l source = .ok l') :
    l'.name = l.name ∧ l'.deleted = l.deleted ∧ l'.limit = l.limit ∧
    l'.timeWindow = l.timeWindow := by
  unfold reset at h
  split at h
  · exact Except.noConfusion h
  · simp only [Except.ok.injEq] at h
    subst h
    exact ⟨rfl, rfl, rfl, rfl⟩

theorem setRemaining_pres {l l' : Limiter} {source : String} {r now : Int}
    (h : setRemaining l source r now = .ok l') :
    l'.name = l.name ∧ l'.deleted = l.deleted ∧ l'.limit = l.limit ∧
    l'.timeWindow = l.timeWindow := by
  unfold setRemaining at h
  split at h
  · exact Except.noConfusion h
  · simp only [Except.ok.injEq] at h
    subst h
    exact ⟨rfl, rfl, rfl, rfl⟩

theorem clear_pres {l l' : Limiter} (h : clear l = .ok l') :
    l'.name = l.name ∧ l'.deleted = l.deleted ∧ l'.limit = l.limit ∧
    l'.timeWindow = l.timeWindow := by
  unfold clear at h
  split at h
  · exact Except.noConfusion h
  · simp only [Except.ok.injEq] at h
    subst h
    exact ⟨rfl, rfl, rfl, rfl⟩

theorem cleanup_pres {l l' : Limiter} {now : Int} (h : cleanup l now = .ok l') :
    l'.name = l.name ∧ l'.deleted = l.deleted ∧ l'.limit = l.limit ∧
    l'.timeWindow = l.timeWindow := by
  unfold cleanup at h
  split at h
  · exact Except.noConfusion h
  · simp only [Except.ok.injEq] at h
    subst h
    exact ⟨rfl, rfl, rfl, rfl⟩

theorem clear_ok {l : Limiter} (h : l.deleted = false) :
    clear l = .ok { l with attempts := [] } := by
  unfold clear
  rw [if_neg (by simp [h])]

theorem clear_of_ok {l l' : Limiter} (h : clear l = .ok l') :
    l.deleted = false ∧ l' = { l with attempts := [] } := by
  unfold clear at h
  split at h
  · exact Except.noConfusion h
  · rename_i hd
    simp only [Except.ok.injEq] at h
    exact ⟨Bool.not_eq_true _ ▸ (by simpa using hd), h.symm⟩

theorem cleanup_ok {l : Limiter} (now : Int) (h : l.deleted = false) :
    cleanup l now = .ok { l with attempts :=
      (l.attempts.filter fun e => !decide (e.2.1 + l.timeWindow * 1000 < now)) } := by
  unfold cleanup
  rw [if_neg (by simp [h])]

theorem reset_ok {l : Limiter} (source : String) (h : l.deleted = false) :
    reset l source = .ok { l with attempts := mapDelete l.attempts source } := by
  unfold reset
  rw [if_neg (by simp [h])]

theorem setRemaining_ok {l : Limiter} (source : String) (r now : Int)
    (h : l.deleted = false) :
    setRemaining l source r now = .ok { l with attempts :=
      (mapSet l.attempts source (l.limit - r,
        ((mapGet l.attempts source).getD (0, now)).2)) } := by
  unfold setRemaining
  rw [if_neg (by simp [h])]

/-! ### The registry/heap invariant and its preservation -/

/-- Every registered name resolves to a live (non-deleted) instance with
that name; every live instance is registered under its name; registry
keys are unique (JS `Map` keys). -/
def Inv (s : GState) : Prop :=
  (∀ n id, mapGet s.registry n = some id →
     ∃ l, heapGet s.heap id = some l ∧ l.deleted = false ∧ l.name = n) ∧
  (∀ id l, heapGet s.heap id = some l → l.deleted = false →
     mapGet s.registry l.name = some id) ∧
  (s.registry.map Prod.fst).Nodup

theorem inv_init : Inv initState := by
  refine ⟨?_, ?_, ?_⟩
  · intro n id h
    simp [initState, mapGet] at h
  · intro id l h
    simp [initState] at h
    cases id <;> simp [heapGet] at h
  · simp [initState]

theorem inv_heapSet {s : GState} {id : Nat} {l l' : Limiter}
    (hInv : Inv s) (hl : heapGet s.heap id = some l)
    (hname : l'.name = l.name) (hdel : l'.deleted = l.deleted) :
    Inv { s with heap := heapSet s.heap id l' } := by
  obtain ⟨hreg, hheap, hnd⟩ := hInv
  refine ⟨?_, ?_, hnd⟩
  · intro n j hj
    obtain ⟨m, hm, hmdel, hmname⟩ := hreg n j hj
    by_cases hij : id = j
    · subst hij
      rw [hl] at hm
      obtain rfl := Option.some.injEq .. ▸ hm
      exact ⟨l', heapGet_heapSet_self _ _ _ _ hl,
        hdel.trans hmdel, hname.trans hmname⟩
    · exact ⟨m, (heapGet_heapSet_ne _ _ _ _ hij).symm ▸ hm, hmdel, hmname⟩
  · intro j m hm hmdel
    by_cases hij : id = j
    · subst hij
      rw [heapGet_heapSet_self _ _ _ _ hl] at hm
      obtain rfl := Option.some.injEq .. ▸ hm
      rw [hname]
      exact hheap id l hl (hdel ▸ hmdel)
    · rw [heapGet_heapSet_ne _ _ _ _ hij] at hm
      exact hheap j m hm hmdel

theorem inv_construct {s s' : GState} {n : String} {lim tw : Int} {id : Nat}
    (hInv : Inv s) (h : construct s n lim tw = .ok (s', id)) : Inv s' := by
  obtain ⟨hreg, hheap, hnd⟩ := hInv
  unfold construct at h
  split at h
  · exact Except.noConfusion h
  · rename_i hnone
    simp only [Except.ok.injEq, Prod.mk.injEq] at h
    obtain ⟨rfl, rfl⟩ := h
    refine ⟨?_, ?_, keys_nodup_mapSet_absent _ _ _ hnone hnd⟩
    · intro n' j hj
      by_cases hn : n' = n
      · subst hn
        rw [mapGet_mapSet_self] at hj
        obtain rfl := Option.some.injEq .. ▸ hj
        exact ⟨_, heapGet_length s.heap _, rfl, rfl⟩
      · rw [mapGet_mapSet_ne _ _ hn] at hj
        obtain ⟨m, hm, hmdel, hmname⟩ := hreg n' j hj
        exact ⟨m, heapGet_append _ _ _ _ hm, hmdel, hmname⟩
    · intro j m hm hmdel
      rcases heapGet_append_cases _ _ _ _ hm with h₀ | ⟨rfl, rfl⟩
      · have := hheap j m h₀ hmdel
        have hne : m.name ≠ n := by
          rintro rfl
          rw [this] at hnone
          exact Option.noConfusion hnone
        rw [mapGet_mapSet_ne _ _ hne]
        exact this
      · simp only
        rw [mapGet_mapSet_self]

theorem inv_deleteInst {s s' : GState} {id : Nat}
    (hInv : Inv s) (h : deleteInst s id = .ok s') : Inv s' := by
  obtain ⟨hreg, hheap, hnd⟩ := hInv
  unfold deleteInst at h
  split at h
  · exact Except.noConfusion h
  · rename_i l hl
    cases hc : clear l with
    | error e => rw [hc] at h; exact Except.noConfusion h
    | ok l₂ =>
      rw [hc] at h
      simp only [Except.map, Except.ok.injEq] at h
      subst h
      obtain ⟨hldel, rfl⟩ := clear_of_ok hc
      refine ⟨?_, ?_, keys_nodup_mapDelete _ _ hnd⟩
      · intro n j hj
        by_cases hn : n = l.name
        · subst hn
          rw [mapGet_mapDelete_self] at hj
          exact Option.noConfusion hj
        · rw [mapGet_mapDelete_ne _ hn] at hj
          obtain ⟨m, hm, hmdel, hmname⟩ := hreg n j hj
          have hij : id ≠ j := by
            rintro rfl
            rw [hl] at hm
            obtain rfl := Option.some.injEq .. ▸ hm
            exact hn hmname.symm
          exact ⟨m, (heapGet_heapSet_ne _ _ _ _ hij).symm ▸ hm, hmdel, hmname⟩
      · intro j m hm hmdel
        by_cases hij : id = j
        · subst hij
          rw [heapGet_heapSet_self _ _ _ _ hl] at hm
          obtain rfl := Option.some.injEq .. ▸ hm
          exact absurd hmdel (by simp)
        · rw [heapGet_heapSet_ne _ _ _ _ hij] at hm
          have hr := hheap j m hm hmdel
          have hne : m.name ≠ l.name := by
            intro he
            have hr' := hheap id l hl hldel
            rw [he, hr'] at hr
            exact hij (Option.some.injEq .. ▸ hr)
          rw [mapGet_mapDelete_ne _ hne]
          exact hr

theorem inv_checkAt {s s' : GState} {id : Nat} {src : String} {now : Int}
    {r : AttemptResult} (hInv : Inv s) (h : checkAt s id src now = .ok (s', r)) :
    Inv s' := by
  unfold checkAt at h
  split at h
  · exact Except.noConfusion h
  · rename_i l hl
    cases hc : check l src now with
    | error e => rw [hc] at h; exact Except.noConfusion h
    | ok p =>
      rw [hc] at h
      simp only [Except.map, Except.ok.injEq] at h
      obtain ⟨rfl, rfl⟩ := h
      obtain rfl := check_inv hc
      exact inv_heapSet hInv hl rfl rfl

theorem inv_attemptAt {s s' : GState} {id : Nat} {src : String} {w now : Int}
    {r : AttemptResult} (hInv : Inv s) (h : attemptAt s id src w now = .ok (s', r)) :
    Inv s' := by
  unfold attemptAt at h
  split at h
  · exact Except.noConfusion h
  · rename_i l hl
    cases hc : attempt l src w now with
    | error e => rw [hc] at h; exact Except.noConfusion h
    | ok p =>
      rw [hc] at h
      simp only [Except.map, Except.ok.injEq] at h
      obtain ⟨rfl, rfl⟩ := h
      have hp : attempt l src w now = .ok (p.1, p.2) := by rw [hc]
      obtain ⟨hn, hd, _, _⟩ := attempt_pres hp
      exact inv_heapSet hInv hl hn hd

theorem inv_modAt {s s' : GState} {id : Nat} {f : Limiter → Except RLError Limiter}
    (hInv : Inv s)
    (hf : ∀ l l', f l = .ok l' → l'.name = l.name ∧ l'.deleted = l.deleted)
    (h : modAt s id f = .ok s') : Inv s' := by
  unfold modAt at h
  split at h
  · exact Except.noConfusion h
  · rename_i l hl
    cases hc : f l with
    | error e => rw [hc] at h; exact Except.noConfusion h
    | ok l' =>
      rw [hc] at h
      simp only [Except.map, Except.ok.injEq] at h
      subst h
      obtain ⟨hn, hd⟩ := hf l l' hc
      exact inv_heapSet hInv hl hn hd

theorem inv_resetAt {s s' : GState} {id : Nat} {src : String}
    (hInv : Inv s) (h : resetAt s id src = .ok s') : Inv s' :=
  inv_modAt hInv (fun _ _ hc => ⟨(reset_pres hc).1, (reset_pres hc).2.1⟩) h

theorem inv_setRemainingAt {s s' : GState} {id : Nat} {src : String} {r now : Int}
    (hInv : Inv s) (h : setRemainingAt s id src r now = .ok s') : Inv s' :=
  inv_modAt hInv (fun _ _ hc => ⟨(setRemaining_pres hc).1, (setRemaining_pres hc).2.1⟩) h

theorem inv_clearAt {s s' : GState} {id : Nat}
    (hInv : Inv s) (h : clearAt s id = .ok s') : Inv s' :=
  inv_modAt hInv (fun _ _ hc => ⟨(clear_pres hc).1, (clear_pres hc).2.1⟩) h

theorem inv_cleanupAt {s s' : GState} {id : Nat} {now : Int}
    (hInv : Inv s) (h : cleanupAt s id now = .ok s') : Inv s' :=
  inv_modAt hInv (fun _ _ hc => ⟨(cleanup_pres hc).1, (cleanup_pres hc).2.1⟩) h

theorem inv_cleanupFold {now : Int} : ∀ (ids : List Nat) (s s' : GState),
    Inv s → ids.foldlM (fun st id => cleanupAt st id now) s = .ok s' → Inv s'
  | [], s, s', hInv, h => by
    simp only [List.foldlM_nil] at h
    have hss : s = s' := by injection h
    exact hss ▸ hInv
  | id :: rest, s, s', hInv, h => by
    rw [List.foldlM_cons] at h
    cases hc : cleanupAt s id now with
    | error e =>
      rw [hc] at h
      exact Except.noConfusion h
    | ok s₁ =>
      rw [hc] at h
      exact inv_cleanupFold rest s₁ s' (inv_cleanupAt hInv hc) h

theorem inv_cleanupAll {s s' : GState} {now : Int}
    (hInv : Inv s) (h : cleanupAll s now = .ok s') : Inv s' :=
  inv_cleanupFold _ s s' hInv h

theorem inv_create {s s' : GState} {n : String} {lim tw : Int} {id : Nat}
    (hInv : Inv s) (h : create s n lim tw = .ok (s', id)) : Inv s' := by
  unfold create at h
  split at h
  · simp only [Except.ok.injEq, Prod.mk.injEq] at h
    exact h.1 ▸ hInv
  · exact inv_construct hInv h

/-- Every reachable global state satisfies the registry/heap invariant. -/
theorem reachable_inv {s : GState} (h : Reachable s) : Inv s := by
  induction h with
  | init => exact inv_init
  | construct _ h ih => exact inv_construct ih h
  | create _ h ih => exact inv_create ih h
  | checkAt _ h ih => exact inv_checkAt ih h
  | attemptAt _ h ih => exact inv_attemptAt ih h
  | resetAt _ h ih => exact inv_resetAt ih h
  | setRemainingAt _ h ih => exact inv_setRemainingAt ih h
  | clearAt _ h ih => exact inv_clearAt ih h
  | cleanupAt _ h ih => exact inv_cleanupAt ih h
  | deleteInst _ h ih => exact inv_deleteInst ih h
  | cleanupAll _ h ih => exact inv_cleanupAll ih h

/-! ### Evaluation and error lemmas for the id-indexed wrappers -/

theorem modAt_ok {s : GState} {id : Nat} {f : Limiter → Except RLError Limiter}
    {l l' : Limiter} (hl : heapGet s.heap id = some l) (hf : f l = .ok l') :
    modAt s id f = .ok { s with heap := heapSet s.heap id l' } := by
  unfold modAt
  rw [hl]
  dsimp only
  rw [hf]
  rfl

theorem modAt_error {s : GState} {id : Nat} {f : Limiter → Except RLError Limiter}
    {l : Limiter} {e : RLError} (hl : heapGet s.heap id = some l)
    (hf : f l = .error e) : modAt s id f = .error e := by
  unfold modAt
  rw [hl]
  dsimp only
  rw [hf]
  rfl

theorem modAt_registry {s s' : GState} {id : Nat} {f : Limiter → Except RLError Limiter}
    (h : modAt s id f = .ok s') : s'.registry = s.registry := by
  unfold modAt at h
  split at h
  · exact Except.noConfusion h
  · rename_i l hl
    cases hc : f l with
    | error e => rw [hc] at h; exact Except.noConfusion h
    | ok l' =>
      rw [hc] at h
      simp only [Except.map, Except.ok.injEq] at h
      subst h
      rfl

theorem reset_deleted {l : Limiter} (source : String) (h : l.deleted = true) :
    reset l source = .error .DeletedInstance := by
  unfold reset
  rw [if_pos h]

theorem setRemaining_deleted {l : Limiter} (source : String) (r now : Int)
    (h : l.deleted = true) : setRemaining l source r now = .error .DeletedInstance := by
  unfold setRemaining
  rw [if_pos h]

theorem clear_deleted {l : Limiter} (h : l.deleted = true) :
    clear l = .error .DeletedInstance := by
  unfold clear
  rw [if_pos h]

theorem cleanup_deleted {l : Limiter} (now : Int) (h : l.deleted = true) :
    cleanup l now = .error .DeletedInstance := by
  unfold cleanup
  rw [if_pos h]

theorem checkAt_deleted {s : GState} {id : Nat} {l : Limiter}
    (hl : heapGet s.heap id = some l) (hd : l.deleted = true)
    (src : String) (now : Int) :
    checkAt s id src now = .error .DeletedInstance := by
  unfold checkAt
  rw [hl]
  dsimp only
  rw [check_deleted src now hd]
  rfl

theorem attemptAt_deleted {s : GState} {id : Nat} {l : Limiter}
    (hl : heapGet s.heap id = some l) (hd : l.deleted = true)
    (src : String) (w now : Int) :
    attemptAt s id src w now = .error .DeletedInstance := by
  unfold attemptAt
  rw [hl]
  dsimp only
  rw [attempt_deleted src w now hd]
  rfl

theorem deleteInst_deleted {s : GState} {id : Nat} {l : Limiter}
    (hl : heapGet s.heap id = some l) (hd : l.deleted = true) :
    deleteInst s id = .error .DeletedInstance := by
  unfold deleteInst
  rw [hl]
  dsimp only
  rw [clear_deleted hd]
  rfl

theorem deleteInst_ok {s : GState} {id : Nat} {l : Limiter}
    (hl : heapGet s.heap id = some l) (hd : l.deleted = false) :
    deleteInst s id = .ok
      { heap := heapSet s.heap id { l with attempts := [], deleted := true },
        registry := mapDelete s.registry l.name } := by
  unfold deleteInst
  rw [hl]
  dsimp only
  rw [clear_ok hd]
  rfl

/-! ### Success of the no-name `cleanup()` under the invariant -/

theorem cleanupFold_ok (now : Int) : ∀ (ids : List Nat) (s : GState),
    Inv s → (∀ id ∈ ids, ∃ n, mapGet s.registry n = some id) →
    ∃ s', ids.foldlM (fun st id => cleanupAt st id now) s = .ok s'
  | [], s, _, _ => ⟨s, rfl⟩
  | id :: rest, s, hInv, hmem => by
    obtain ⟨n, hn⟩ := hmem id (List.mem_cons_self id rest)
    obtain ⟨l, hl, hdel, _⟩ := hInv.1 n id hn
    have hstep : cleanupAt s id now = .ok
        { s with heap := heapSet s.heap id { l with attempts :=
          (l.attempts.filter fun e => !decide (e.2.1 + l.timeWindow * 1000 < now)) } } :=
      modAt_ok hl (cleanup_ok now hdel)
    have hinv₁ := inv_cleanupAt hInv hstep
    have hreg₁ := modAt_registry hstep
    obtain ⟨s', hs'⟩ := cleanupFold_ok now rest _ hinv₁
      (fun j hj => by
        obtain ⟨n', hn'⟩ := hmem j (List.mem_cons_of_mem id hj)
        exact ⟨n', by rw [hreg₁]; exact hn'⟩)
    refine ⟨s', ?_⟩
    rw [List.foldlM_cons, hstep]
    exact hs'

theorem cleanupAll_ok {s : GState} (hInv : Inv s) (now : Int) :
    ∃ s', cleanupAll s now = .ok s' := by
  unfold cleanupAll
  refine cleanupFold_ok now _ s hInv ?_
  intro id hid
  obtain ⟨p, hp, hsnd⟩ := List.mem_map.mp hid
  exact ⟨p.1, hsnd ▸ mem_mapGet hInv.2.2 (by
    obtain ⟨a, b⟩ := p
    exact hp)⟩

theorem ceilDiv_nonpos {a : Int} (h : a < 0) : ceilDiv a 1000 ≤ 0 := by
  unfold ceilDiv
  have h1 : (0 : Int) ≤ (-a) / 1000 := Int.ediv_nonneg (by linarith) (by norm_num)
  rw [show Int.ediv (-a) 1000 = (-a) / 1000 from rfl]
  linarith

theorem attempt_ok (source : String) (w now : Int) {l : Limiter}
    (h : l.deleted = false) : ∃ p, attempt l source w now = .ok p := by
  rw [attempt_eq source w now h]
  exact ⟨_, check_ok source now h⟩

theorem ceilDiv_eq_ceil (a : Int) : ceilDiv a 1000 = ⌈((a : ℚ) / 1000)⌉ := by
  have h := Rat.floor_intCast_div_natCast (-a) 1000
  push_cast at h
  unfold ceilDiv
  rw [show Int.ediv (-a) 1000 = (-a) / 1000 from rfl, ← h, neg_div, Int.floor_neg,
    neg_neg]

/-- Full behaviour of a successful `attempt`: rollover strictly before
the increment, storage of the updated entry, result via `check` on the
updated state, all other state preserved. Shared by several theorems. -/
theorem attempt_spec (l : Limiter) (source : String) (w now : Int)
    (h : l.deleted = false) :
    ∃ l' r, attempt l source w now = .ok (l', r) ∧
      check l' source now = .ok (l', r) ∧
      l'.name = l.name ∧ l'.limit = l.limit ∧ l'.timeWindow = l.timeWindow ∧
      l'.deleted = false ∧
      (∀ src', src' ≠ source → mapGet l'.attempts src' = mapGet l.attempts src') ∧
      (∀ c ws, mapGet l.attempts source = some (c, ws) →
         (ws + l.timeWindow * 1000 < now →
            mapGet l'.attempts source = some (w, now)) ∧
         (¬ ws + l.timeWindow * 1000 < now →
            mapGet l'.attempts source = some (c + w, ws))) ∧
      (mapGet l.attempts source = none →
         mapGet l'.attempts source = some (w, now)) := by
  simp only [attempt_eq source w now h]
  refine ⟨_, _, check_ok source now h, check_ok source now h,
    rfl, rfl, rfl, h, ?_, ?_, ?_⟩
  · intro src' hne
    exact mapGet_mapSet_ne _ _ hne
  · intro c ws he
    constructor
    · intro hexp
      rw [mapGet_mapSet_self]
      simp only [he, Option.getD_some, if_pos hexp, zero_add]
    · intro hexp
      rw [mapGet_mapSet_self]
      simp only [he, Option.getD_some, if_neg hexp]
  · intro hnone
    rw [mapGet_mapSet_self]
    simp only [hnone, Option.getD_none, ite_self, zero_add]

/-! ### Claim theorems -/

/-- C1 (code bug): the claim — and the method's own doc comment, "This
will remove expired entries" — says `cleanup()` removes exactly the
entries whose window has expired (`windowStart + timeWindow*1000 < now`)
and leaves non-expired entries unchanged. The source destructures
`for (const [source, [attempts]] of this.#attempts)`, so `attempts` is
the entry's COUNT, and deletes entries with `count + timeWindow*1000 <
now`. Here a limiter with `timeWindow = 60` s holds one entry whose
window starts exactly at `now = 1700000000000` (not expired), yet
`cleanup` deletes it, because its count 2 plus 60000 is below `now`. -/
theorem C1_cleanup_removes_live_entry :
    cleanup { name := "api", limit := 5, timeWindow := 60, deleted := false,
              attempts := [("live", (2, 1700000000000))] } 1700000000000
      = .ok { name := "api", limit := 5, timeWindow := 60, deleted := false,
              attempts := [] } ∧
    ¬ ((1700000000000 : Int) + 60 * 1000 < 1700000000000) :=
  ⟨rfl, by decide⟩

/-- C2 counterexample: with "api" already registered (heap cell 0),
`RateLimit.create("api", 10, 120)` returns the existing instance id 0
with the state unchanged; it does not fail with `DuplicateName` and does
not register a new instance, contrary to the claim. -/
theorem C2_counterexample_create_returns_existing :
    create { heap := [{ name := "api", limit := 5, timeWindow := 60,
                        deleted := false, attempts := [] }],
             registry := [("api", 0)] } "api" 10 120
      = .ok ({ heap := [{ name := "api", limit := 5, timeWindow := 60,
                          deleted := false, attempts := [] }],
               registry := [("api", 0)] }, 0) := rfl

/-- C2 (amended): for a name already present in the registry,
`create(name, limit, timeWindow)` returns the existing instance and
leaves the state unchanged (ignoring the supplied limit/timeWindow),
while the constructor `new RateLimit(name, ...)` is the operation that
fails with `DuplicateName`, leaving the registered instance untouched;
when the name is absent, `create` registers and returns a fresh
non-deleted instance and existing heap cells are unchanged. -/
theorem C2_create_semantics (s : GState) (name : String) (lim tw : Int) :
    (∀ id, getStatic s name = some id →
       create s name lim tw = .ok (s, id) ∧
       construct s name lim tw = .error .DuplicateName) ∧
    (getStatic s name = none →
       ∃ s', create s name lim tw = .ok (s', s.heap.length) ∧
         getStatic s' name = some s.heap.length ∧
         heapGet s'.heap s.heap.length = some
           { name := name, limit := lim, timeWindow := tw,
             deleted := false, attempts := [] } ∧
         (∀ i l, heapGet s.heap i = some l → heapGet s'.heap i = some l) ∧
         (∀ n', n' ≠ name → getStatic s' n' = getStatic s n')) := by
  constructor
  · intro id hid
    constructor
    · unfold create
      rw [hid]
    · unfold construct
      rw [show mapGet s.registry name = some id from hid]
  · intro hnone
    refine ⟨{ heap := s.heap ++ [{ name := name, limit := lim, timeWindow := tw,
                                   deleted := false, attempts := [] }],
              registry := mapSet s.registry name s.heap.length },
            ?_, ?_, ?_, ?_, ?_⟩
    · unfold create construct
      rw [show getStatic s name = none from hnone,
          show mapGet s.registry name = none from hnone]
    · exact mapGet_mapSet_self ..
    · exact heapGet_length ..
    · exact fun i l hl => heapGet_append _ _ _ _ hl
    · intro n' hne
      exact mapGet_mapSet_ne _ _ hne

/-- C2 witness: the duplicate-name half of the amended claim evaluated on
a concrete one-limiter state. -/
theorem C2_create_semantics_witness :
    create { heap := [{ name := "api", limit := 5, timeWindow := 60,
                        deleted := false, attempts := [] }],
             registry := [("api", 0)] } "api" 10 120
      = .ok ({ heap := [{ name := "api", limit := 5, timeWindow := 60,
                          deleted := false, attempts := [] }],
               registry := [("api", 0)] }, 0) ∧
    construct { heap := [{ name := "api", limit := 5, timeWindow := 60,
                           deleted := false, attempts := [] }],
                registry := [("api", 0)] } "api" 10 120
      = .error .DuplicateName :=
  (C2_create_semantics { heap := [{ name := "api", limit := 5, timeWindow := 60,
                                    deleted := false, attempts := [] }],
                         registry := [("api", 0)] } "api" 10 120).1 0 rfl

/-- C3: on a non-deleted limiter, `attempt(source, w)` first rolls the
window over if it expired (count 0, windowStart `now`) and only then adds
the weight, stores the entry, and returns `check(source)` on the updated
state. An attempt that crosses a window boundary stores `(w, now)` — the
new weight only, never cumulative with the prior window's count; a
non-expired entry becomes `(c + w, ws)`; other sources and the limiter's
attributes are untouched. -/
theorem C3_attempt_rollover (l : Limiter) (source : String) (w now : Int)
    (h : l.deleted = false) :
    ∃ l' r, attempt l source w now = .ok (l', r) ∧
      check l' source now = .ok (l', r) ∧
      l'.name = l.name ∧ l'.limit = l.limit ∧ l'.timeWindow = l.timeWindow ∧
      l'.deleted = false ∧
      (∀ src', src' ≠ source → mapGet l'.attempts src' = mapGet l.attempts src') ∧
      (∀ c ws, mapGet l.attempts source = some (c, ws) →
         (ws + l.timeWindow * 1000 < now →
            mapGet l'.attempts source = some (w, now)) ∧
         (¬ ws + l.timeWindow * 1000 < now →
            mapGet l'.attempts source = some (c + w, ws))) ∧
      (mapGet l.attempts source = none →
         mapGet l'.attempts source = some (w, now)) :=
  attempt_spec l source w now h

/-- C3 witness: an attempt of weight 2 that crosses the window boundary
(entry `(2, 1000)`, window 60 s, `now = 61001`) on a concrete limiter. -/
theorem C3_attempt_rollover_witness :
    ({ name := "login", limit := 3, timeWindow := 60, deleted := false,
       attempts := [("u1", (2, 1000))] } : Limiter).deleted = false ∧
    (∃ l' r, attempt { name := "login", limit := 3, timeWindow := 60,
                       deleted := false, attempts := [("u1", (2, 1000))] }
                     "u1" 2 61001 = .ok (l', r) ∧
      check l' "u1" 61001 = .ok (l', r) ∧
      l'.name = "login" ∧ l'.limit = 3 ∧ l'.timeWindow = 60 ∧
      l'.deleted = false ∧
      (∀ src', src' ≠ "u1" →
         mapGet l'.attempts src' = mapGet [("u1", ((2 : Int), (1000 : Int)))] src') ∧
      (∀ c ws, mapGet [("u1", ((2 : Int), (1000 : Int)))] "u1" = some (c, ws) →
         (ws + 60 * 1000 < 61001 → mapGet l'.attempts "u1" = some (2, 61001)) ∧
         (¬ ws + 60 * 1000 < 61001 → mapGet l'.attempts "u1" = some (c + 2, ws))) ∧
      (mapGet [("u1", ((2 : Int), (1000 : Int)))] "u1" = none →
         mapGet l'.attempts "u1" = some (2, 61001))) :=
  ⟨rfl, C3_attempt_rollover { name := "login", limit := 3, timeWindow := 60,
                              deleted := false, attempts := [("u1", (2, 1000))] }
                            "u1" 2 61001 rfl⟩

/-- C4: on a non-deleted limiter, the result of `check(source)` has
`limit` equal to the limiter's current limit, `remaining = limit - count`
(possibly negative), `reset = ceil((windowStart + timeWindow*1000 -
now)/1000)` as a true rational ceiling, and `allow` holds exactly when
`remaining > 0`; an absent source is computed as `count = 0, windowStart
= now` (the `getD (0, now)` default), and the state is unchanged. -/
theorem C4_check_result (l : Limiter) (source : String) (now c ws : Int)
    (h : l.deleted = false)
    (he : (mapGet l.attempts source).getD (0, now) = (c, ws)) :
    ∃ r, check l source now = .ok (l, r) ∧
      r.limit = l.limit ∧
      r.remaining = l.limit - c ∧
      r.reset = ⌈((ws + l.timeWindow * 1000 - now : Int) : ℚ) / 1000⌉ ∧
      (r.allow = true ↔ r.remaining > 0) ∧
      (mapGet l.attempts source = none → c = 0 ∧ ws = now) := by
  refine ⟨_, check_ok source now h, rfl, ?_, ?_, ?_, ?_⟩
  · rw [he]
  · rw [he]
    exact ceilDiv_eq_ceil _
  · simp [he, decide_eq_true_iff]
  · intro hnone
    rw [hnone] at he
    simp only [Option.getD_none, Prod.mk.injEq] at he
    exact ⟨he.1.symm, he.2.symm⟩

/-- C4 witness: the formulae evaluated on a concrete limiter with entry
`(1, 1000)`, window 60 s, at `now = 2000`. -/
theorem C4_check_result_witness :
    ({ name := "login", limit := 3, timeWindow := 60, deleted := false,
       attempts := [("u1", (1, 1000))] } : Limiter).deleted = false ∧
    ((mapGet ([("u1", ((1 : Int), (1000 : Int)))]) "u1").getD (0, 2000)
      = ((1 : Int), (1000 : Int))) ∧
    (∃ r, check { name := "login", limit := 3, timeWindow := 60,
                  deleted := false, attempts := [("u1", (1, 1000))] }
                "u1" 2000
        = .ok ({ name := "login", limit := 3, timeWindow := 60,
                 deleted := false, attempts := [("u1", (1, 1000))] }, r) ∧
      r.limit = 3 ∧
      r.remaining = 3 - 1 ∧
      r.reset = ⌈((1000 + 60 * 1000 - 2000 : Int) : ℚ) / 1000⌉ ∧
      (r.allow = true ↔ r.remaining > 0) ∧
      (mapGet ([("u1", ((1 : Int), (1000 : Int)))]) "u1" = none →
         (1 : Int) = 0 ∧ (1000 : Int) = 2000)) :=
  ⟨rfl, rfl, C4_check_result { name := "login", limit := 3, timeWindow := 60,
                               deleted := false, attempts := [("u1", (1, 1000))] }
                             "u1" 2000 1 1000 rfl rfl⟩

/-- C6: `check(source)` on a non-deleted limiter is read-only: at the
instance level it returns the limiter unchanged, and at the global level
`checkAt` returns the whole global state unchanged — no entry is
persisted for an absent source and no stored entry is rolled over. -/
theorem C6_check_readonly (s : GState) (id : Nat) (l : Limiter)
    (source : String) (now : Int)
    (hl : heapGet s.heap id = some l) (h : l.deleted = false) :
    ∃ r, check l source now = .ok (l, r) ∧
      checkAt s id source now = .ok (s, r) := by
  refine ⟨_, check_ok source now h, ?_⟩
  unfold checkAt
  rw [hl]
  dsimp only
  rw [check_ok source now h]
  dsimp only [Except.map]
  rw [heapSet_same s.heap id l hl]

/-- C6 witness: a concrete one-limiter global state; `check` of an absent
source leaves both the limiter and the global state unchanged. -/
theorem C6_check_readonly_witness :
    heapGet [({ name := "api", limit := 5, timeWindow := 60, deleted := false,
                attempts := [] } : Limiter)] 0
      = some { name := "api", limit := 5, timeWindow := 60, deleted := false,
               attempts := [] } ∧
    (∃ r, check { name := "api", limit := 5, timeWindow := 60,
                  deleted := false, attempts := [] } "ip1" 500
        = .ok ({ name := "api", limit := 5, timeWindow := 60,
                 deleted := false, attempts := [] }, r) ∧
      checkAt { heap := [{ name := "api", limit := 5, timeWindow := 60,
                           deleted := false, attempts := [] }],
                registry := [("api", 0)] } 0 "ip1" 500
        = .ok ({ heap := [{ name := "api", limit := 5, timeWindow := 60,
                            deleted := false, attempts := [] }],
                 registry := [("api", 0)] }, r)) :=
  ⟨rfl, C6_check_readonly { heap := [{ name := "api", limit := 5, timeWindow := 60,
                                       deleted := false, attempts := [] }],
                            registry := [("api", 0)] } 0 _ "ip1" 500 rfl rfl⟩

/-- C7: on a non-deleted limiter, `setRemaining(source, r)` stores
`count = limit - r` keeping an existing entry's `windowStart` (using
`now` only when the entry is absent), leaves other sources untouched,
and — while `limit` is unchanged — a subsequent `check(source)` at any
time returns `remaining = r`. -/
theorem C7_setRemaining (l : Limiter) (source : String) (r now : Int)
    (h : l.deleted = false) :
    ∃ l', setRemaining l source r now = .ok l' ∧
      (∀ c ws, mapGet l.attempts source = some (c, ws) →
         mapGet l'.attempts source = some (l.limit - r, ws)) ∧
      (mapGet l.attempts source = none →
         mapGet l'.attempts source = some (l.limit - r, now)) ∧
      (∀ src', src' ≠ source → mapGet l'.attempts src' = mapGet l.attempts src') ∧
      l'.limit = l.limit ∧ l'.deleted = false ∧
      (∀ now', ∃ res, check l' source now' = .ok (l', res) ∧ res.remaining = r) := by
  refine ⟨_, setRemaining_ok source r now h, ?_, ?_, ?_, rfl, h, ?_⟩
  · intro c ws he
    rw [mapGet_mapSet_self]
    simp [he]
  · intro hnone
    rw [mapGet_mapSet_self]
    simp [hnone]
  · intro src' hne
    exact mapGet_mapSet_ne _ _ hne
  · intro now'
    refine ⟨_, check_ok source now' h, ?_⟩
    simp only [mapGet_mapSet_self, Option.getD_some]
    ring

/-- C7 witness: `setRemaining("u1", 1)` on a limiter with limit 3 and an
existing entry `(5, 1000)`: the stored count becomes `3 - 1`, the window
start 1000 is kept, and a later check reads back `remaining = 1`. -/
theorem C7_setRemaining_witness :
    ({ name := "login", limit := 3, timeWindow := 60, deleted := false,
       attempts := [("u1", (5, 1000))] } : Limiter).deleted = false ∧
    (∃ l', setRemaining { name := "login", limit := 3, timeWindow := 60,
                          deleted := false, attempts := [("u1", (5, 1000))] }
                        "u1" 1 2000 = .ok l' ∧
      (∀ c ws, mapGet [("u1", ((5 : Int), (1000 : Int)))] "u1" = some (c, ws) →
         mapGet l'.attempts "u1" = some (3 - 1, ws)) ∧
      (mapGet [("u1", ((5 : Int), (1000 : Int)))] "u1" = none →
         mapGet l'.attempts "u1" = some (3 - 1, 2000)) ∧
      (∀ src', src' ≠ "u1" →
         mapGet l'.attempts src' = mapGet [("u1", ((5 : Int), (1000 : Int)))] src') ∧
      l'.limit = 3 ∧ l'.deleted = false ∧
      (∀ now', ∃ res, check l' "u1" now' = .ok (l', res) ∧ res.remaining = 1)) :=
  ⟨rfl, C7_setRemaining { name := "login", limit := 3, timeWindow := 60,
                          deleted := false, attempts := [("u1", (5, 1000))] }
                        "u1" 1 2000 rfl⟩

/-- C10: on a non-deleted limiter whose stored entry for `source` has an
expired window (`windowStart + timeWindow*1000 < now`), `check` performs
no rollover: it returns a non-positive `reset`, a `remaining` computed
from the stale pre-rollover count, and leaves the limiter unchanged; the
stale entry persists until a mutating operation — the next `attempt`
stores `(w, now)` and `reset` deletes the entry. -/
theorem C10_check_expired_stale (l : Limiter) (source : String) (c ws now : Int)
    (h : l.deleted = false)
    (he : mapGet l.attempts source = some (c, ws))
    (hexp : ws + l.timeWindow * 1000 < now) :
    ∃ r, check l source now = .ok (l, r) ∧
      r.reset ≤ 0 ∧
      r.remaining = l.limit - c ∧
      (∀ w, ∃ l' r', attempt l source w now = .ok (l', r') ∧
         mapGet l'.attempts source = some (w, now)) ∧
      reset l source = .ok { l with attempts := mapDelete l.attempts source } := by
  refine ⟨_, check_ok source now h, ?_, ?_, ?_, reset_ok source h⟩
  · simp only [he, Option.getD_some]
    exact ceilDiv_nonpos (by linarith)
  · simp [he]
  · intro w
    obtain ⟨l', r', hatt, _, _, _, _, _, _, hcases, _⟩ :=
      attempt_spec l source w now h
    exact ⟨l', r', hatt, ((hcases c ws he).1 hexp)⟩

/-- C10 witness: the stale-check behaviour on a concrete limiter with an
expired entry `(2, 1000)` (window 60 s) at `now = 70000`. -/
theorem C10_check_expired_stale_witness :
    ({ name := "login", limit := 3, timeWindow := 60, deleted := false,
       attempts := [("u1", (2, 1000))] } : Limiter).deleted = false ∧
    mapGet [("u1", ((2 : Int), (1000 : Int)))] "u1" = some (2, 1000) ∧
    ((1000 : Int) + 60 * 1000 < 70000) ∧
    (∃ r, check { name := "login", limit := 3, timeWindow := 60,
                  deleted := false, attempts := [("u1", (2, 1000))] }
                "u1" 70000
        = .ok ({ name := "login", limit := 3, timeWindow := 60,
                 deleted := false, attempts := [("u1", (2, 1000))] }, r) ∧
      r.reset ≤ 0 ∧
      r.remaining = 3 - 2 ∧
      (∀ w, ∃ l' r', attempt { name := "login", limit := 3, timeWindow := 60,
                               deleted := false, attempts := [("u1", (2, 1000))] }
                             "u1" w 70000 = .ok (l', r') ∧
         mapGet l'.attempts "u1" = some (w, 70000)) ∧
      reset { name := "login", limit := 3, timeWindow := 60, deleted := false,
              attempts := [("u1", (2, 1000))] } "u1"
        = .ok { name := "login", limit := 3, timeWindow := 60, deleted := false,
                attempts :=
                  (mapDelete [("u1", ((2 : Int), (1000 : Int)))] "u1") }) :=
  ⟨rfl, rfl, by decide,
    C10_check_expired_stale { name := "login", limit := 3, timeWindow := 60,
                              deleted := false, attempts := [("u1", (2, 1000))] }
                            "u1" 2 1000 70000 rfl rfl (by decide)⟩

/-! ### Statics never fail with DeletedInstance under the invariant -/

theorem checkStatic_not_deleted {s : GState} (hInv : Inv s)
    (name source : String) (now : Int) :
    checkStatic s name source now ≠ .error .DeletedInstance := by
  unfold checkStatic
  cases hm : getStatic s name with
  | none =>
    intro hc
    injection hc with h2
    exact RLError.noConfusion h2
  | some id =>
    obtain ⟨l, hl, hdel, _⟩ := hInv.1 name id hm
    dsimp only
    unfold checkAt
    rw [hl]
    dsimp only
    rw [check_ok source now hdel]
    intro hc
    exact Except.noConfusion hc

theorem attemptStatic_not_deleted {s : GState} (hInv : Inv s)
    (name source : String) (w now : Int) :
    attemptStatic s name source w now ≠ .error .DeletedInstance := by
  unfold attemptStatic
  cases hm : getStatic s name with
  | none =>
    intro hc
    injection hc with h2
    exact RLError.noConfusion h2
  | some id =>
    obtain ⟨l, hl, hdel, _⟩ := hInv.1 name id hm
    obtain ⟨p, hp⟩ := attempt_ok source w now hdel
    dsimp only
    unfold attemptAt
    rw [hl]
    dsimp only
    rw [hp]
    intro hc
    exact Except.noConfusion hc

theorem resetStatic_not_deleted {s : GState} (hInv : Inv s)
    (name source : String) :
    resetStatic s name source ≠ .error .DeletedInstance := by
  unfold resetStatic
  cases hm : getStatic s name with
  | none =>
    intro hc
    injection hc with h2
    exact RLError.noConfusion h2
  | some id =>
    obtain ⟨l, hl, hdel, _⟩ := hInv.1 name id hm
    dsimp only
    unfold resetAt
    rw [modAt_ok hl (reset_ok source hdel)]
    intro hc
    exact Except.noConfusion hc

theorem setRemainingStatic_not_deleted {s : GState} (hInv : Inv s)
    (name source : String) (r now : Int) :
    setRemainingStatic s name source r now ≠ .error .DeletedInstance := by
  unfold setRemainingStatic
  cases hm : getStatic s name with
  | none =>
    intro hc
    injection hc with h2
    exact RLError.noConfusion h2
  | some id =>
    obtain ⟨l, hl, hdel, _⟩ := hInv.1 name id hm
    dsimp only
    unfold setRemainingAt
    rw [modAt_ok hl (setRemaining_ok source r now hdel)]
    intro hc
    exact Except.noConfusion hc

theorem clearStatic_not_deleted {s : GState} (hInv : Inv s) (name : String) :
    clearStatic s name ≠ .error .DeletedInstance := by
  unfold clearStatic
  cases hm : getStatic s name with
  | none =>
    intro hc
    injection hc with h2
    exact RLError.noConfusion h2
  | some id =>
    obtain ⟨l, hl, hdel, _⟩ := hInv.1 name id hm
    dsimp only
    unfold clearAt
    rw [modAt_ok hl (clear_ok hdel)]
    intro hc
    exact Except.noConfusion hc

theorem cleanupStatic_not_deleted {s : GState} (hInv : Inv s)
    (name : String) (now : Int) :
    cleanupStatic s name now ≠ .error .DeletedInstance := by
  unfold cleanupStatic
  cases hm : getStatic s name with
  | none =>
    intro hc
    injection hc with h2
    exact RLError.noConfusion h2
  | some id =>
    obtain ⟨l, hl, hdel, _⟩ := hInv.1 name id hm
    dsimp only
    unfold cleanupAt
    rw [modAt_ok hl (cleanup_ok now hdel)]
    intro hc
    exact Except.noConfusion hc

theorem deleteStatic_not_deleted {s : GState} (hInv : Inv s) (name : String) :
    deleteStatic s name ≠ .error .DeletedInstance := by
  unfold deleteStatic
  cases hm : getStatic s name with
  | none =>
    intro hc
    injection hc with h2
    exact RLError.noConfusion h2
  | some id =>
    obtain ⟨l, hl, hdel, _⟩ := hInv.1 name id hm
    dsimp only
    rw [deleteInst_ok hl hdel]
    intro hc
    exact Except.noConfusion hc

/-- C5: after a successful `delete()` on the instance at `id`, the name
is gone from the registry, the instance's entries are cleared and it is
marked deleted, and every subsequent operation on that instance — check,
attempt, reset, setRemaining, clear, cleanup, and delete again — fails
with `DeletedInstance`; since all of these fail, no operation can ever
leave the Deleted state: the transition is one-way. -/
theorem C5_delete_permanent (s : GState) (id : Nat) (l : Limiter)
    (hl : heapGet s.heap id = some l) (h : l.deleted = false) :
    ∃ s', deleteInst s id = .ok s' ∧
      getStatic s' l.name = none ∧
      heapGet s'.heap id = some { l with attempts := [], deleted := true } ∧
      (∀ src now, checkAt s' id src now = .error .DeletedInstance) ∧
      (∀ src w now, attemptAt s' id src w now = .error .DeletedInstance) ∧
      (∀ src, resetAt s' id src = .error .DeletedInstance) ∧
      (∀ src r now, setRemainingAt s' id src r now = .error .DeletedInstance) ∧
      clearAt s' id = .error .DeletedInstance ∧
      (∀ now, cleanupAt s' id now = .error .DeletedInstance) ∧
      deleteInst s' id = .error .DeletedInstance := by
  have hld : heapGet (heapSet s.heap id { l with attempts := [], deleted := true }) id
      = some { l with attempts := [], deleted := true } :=
    heapGet_heapSet_self _ _ _ _ hl
  refine ⟨_, deleteInst_ok hl h, mapGet_mapDelete_self .., hld,
    fun src now => checkAt_deleted hld rfl src now,
    fun src w now => attemptAt_deleted hld rfl src w now,
    fun src => modAt_error hld (reset_deleted src rfl),
    fun src r now => modAt_error hld (setRemaining_deleted src r now rfl),
    modAt_error hld (clear_deleted rfl),
    fun now => modAt_error hld (cleanup_deleted now rfl),
    deleteInst_deleted hld rfl⟩

/-- C5 witness: deleting the only limiter of a concrete one-limiter
state; every follow-up operation on instance 0 fails. -/
theorem C5_delete_permanent_witness :
    heapGet [({ name := "api", limit := 5, timeWindow := 60, deleted := false,
                attempts := [("u1", (1, 1000))] } : Limiter)] 0
      = some { name := "api", limit := 5, timeWindow := 60, deleted := false,
               attempts := [("u1", (1, 1000))] } ∧
    (∃ s', deleteInst { heap := [{ name := "api", limit := 5, timeWindow := 60,
                                   deleted := false,
                                   attempts := [("u1", (1, 1000))] }],
                        registry := [("api", 0)] } 0 = .ok s' ∧
      getStatic s' "api" = none ∧
      heapGet s'.heap 0 = some { name := "api", limit := 5, timeWindow := 60,
                                 deleted := true, attempts := [] } ∧
      (∀ src now, checkAt s' 0 src now = .error .DeletedInstance) ∧
      (∀ src w now, attemptAt s' 0 src w now = .error .DeletedInstance) ∧
      (∀ src, resetAt s' 0 src = .error .DeletedInstance) ∧
      (∀ src r now, setRemainingAt s' 0 src r now = .error .DeletedInstance) ∧
      clearAt s' 0 = .error .DeletedInstance ∧
      (∀ now, cleanupAt s' 0 now = .error .DeletedInstance) ∧
      deleteInst s' 0 = .error .DeletedInstance) :=
  ⟨rfl, C5_delete_permanent { heap := [{ name := "api", limit := 5, timeWindow := 60,
                                         deleted := false,
                                         attempts := [("u1", (1, 1000))] }],
                              registry := [("api", 0)] } 0
    { name := "api", limit := 5, timeWindow := 60, deleted := false,
      attempts := [("u1", (1, 1000))] } rfl rfl⟩

/-- C8 counterexample: the static `get` on an unregistered name returns
the absent value (JS `null`), it does not fail with `UnknownName` as the
claim states for every listed operation including `get`. -/
theorem C8_counterexample_get_absent :
    getStatic { heap := [], registry := [] } "missing" = none := rfl

/-- C8 (amended): each name-qualified static operation among check,
attempt, reset, setRemaining, clear, cleanup and delete fails with
`UnknownName` when no limiter of that name is registered, and otherwise
delegates to the corresponding instance method with the same arguments;
static `get` instead returns the absent value without failing; and the
global `cleanup()` with no name argument folds the instance `cleanup`
over every registered limiter instead of failing. -/
theorem C8_static_delegation (s : GState) (name source : String) (w r now : Int) :
    (getStatic s name = none →
       checkStatic s name source now = .error .UnknownName ∧
       attemptStatic s name source w now = .error .UnknownName ∧
       resetStatic s name source = .error .UnknownName ∧
       setRemainingStatic s name source r now = .error .UnknownName ∧
       clearStatic s name = .error .UnknownName ∧
       cleanupStatic s name now = .error .UnknownName ∧
       deleteStatic s name = .error .UnknownName) ∧
    (∀ id, getStatic s name = some id →
       checkStatic s name source now = checkAt s id source now ∧
       attemptStatic s name source w now = attemptAt s id source w now ∧
       resetStatic s name source = resetAt s id source ∧
       setRemainingStatic s name source r now = setRemainingAt s id source r now ∧
       clearStatic s name = clearAt s id ∧
       cleanupStatic s name now = cleanupAt s id now ∧
       deleteStatic s name = deleteInst s id) ∧
    cleanupAll s now =
      (s.registry.map Prod.snd).foldlM (fun st i => cleanupAt st i now) s := by
  refine ⟨?_, ?_, rfl⟩
  · intro h
    refine ⟨?_, ?_, ?_, ?_, ?_, ?_, ?_⟩ <;>
      simp only [checkStatic, attemptStatic, resetStatic, setRemainingStatic,
        clearStatic, cleanupStatic, deleteStatic, h]
  · intro id h
    refine ⟨?_, ?_, ?_, ?_, ?_, ?_, ?_⟩ <;>
      simp only [checkStatic, attemptStatic, resetStatic, setRemainingStatic,
        clearStatic, cleanupStatic, deleteStatic, h]

/-- C8 witness: the UnknownName half evaluated on the empty state. -/
theorem C8_static_delegation_witness :
    checkStatic { heap := [], registry := [] } "missing" "src" 7
      = .error .UnknownName ∧
    attemptStatic { heap := [], registry := [] } "missing" "src" 1 7
      = .error .UnknownName ∧
    resetStatic { heap := [], registry := [] } "missing" "src"
      = .error .UnknownName ∧
    setRemainingStatic { heap := [], registry := [] } "missing" "src" 2 7
      = .error .UnknownName ∧
    clearStatic { heap := [], registry := [] } "missing"
      = .error .UnknownName ∧
    cleanupStatic { heap := [], registry := [] } "missing" 7
      = .error .UnknownName ∧
    deleteStatic { heap := [], registry := [] } "missing"
      = .error .UnknownName :=
  (C8_static_delegation { heap := [], registry := [] } "missing" "src" 1 2 7).1 rfl

/-- C9: in every reachable global state, every limiter in the registry is
non-deleted (with a matching name binding), and consequently the
name-qualified static operations never fail with `DeletedInstance`, and
the global no-name `cleanup()` over all registered limiters always
succeeds. -/
theorem C9_registry_all_active (s : GState) (hs : Reachable s) :
    (∀ n id, getStatic s n = some id →
       ∃ l, heapGet s.heap id = some l ∧ l.deleted = false ∧ l.name = n) ∧
    (∀ name source now, checkStatic s name source now ≠ .error .DeletedInstance) ∧
    (∀ name source w now,
       attemptStatic s name source w now ≠ .error .DeletedInstance) ∧
    (∀ name source, resetStatic s name source ≠ .error .DeletedInstance) ∧
    (∀ name source r now,
       setRemainingStatic s name source r now ≠ .error .DeletedInstance) ∧
    (∀ name, clearStatic s name ≠ .error .DeletedInstance) ∧
    (∀ name now, cleanupStatic s name now ≠ .error .DeletedInstance) ∧
    (∀ name, deleteStatic s name ≠ .error .DeletedInstance) ∧
    (∀ now, ∃ s', cleanupAll s now = .ok s') := by
  have hInv := reachable_inv hs
  exact ⟨hInv.1,
    fun name source now => checkStatic_not_deleted hInv name source now,
    fun name source w now => attemptStatic_not_deleted hInv name source w now,
    fun name source => resetStatic_not_deleted hInv name source,
    fun name source r now => setRemainingStatic_not_deleted hInv name source r now,
    fun name => clearStatic_not_deleted hInv name,
    fun name now => cleanupStatic_not_deleted hInv name now,
    fun name => deleteStatic_not_deleted hInv name,
    fun now => cleanupAll_ok hInv now⟩

/-- C9 witness: the invariant consequences evaluated on the concrete
reachable state obtained by constructing one limiter from the initial
state. -/
theorem C9_registry_all_active_witness :
    (∀ n id, getStatic { heap := [{ name := "api", limit := 5, timeWindow := 60,
                                    deleted := false, attempts := [] }],
                         registry := [("api", 0)] } n = some id →
       ∃ l, heapGet [({ name := "api", limit := 5, timeWindow := 60,
                        deleted := false, attempts := [] } : Limiter)] id
              = some l ∧ l.deleted = false ∧ l.name = n) ∧
    (∀ name source now,
       checkStatic { heap := [{ name := "api", limit := 5, timeWindow := 60,
                                deleted := false, attempts := [] }],
                     registry := [("api", 0)] } name source now
         ≠ .error .DeletedInstance) ∧
    (∀ name source w now,
       attemptStatic { heap := [{ name := "api", limit := 5, timeWindow := 60,
                                  deleted := false, attempts := [] }],
                       registry := [("api", 0)] } name source w now
         ≠ .error .DeletedInstance) ∧
    (∀ name source,
       resetStatic { heap := [{ name := "api", limit := 5, timeWindow := 60,
                                deleted := false, attempts := [] }],
                     registry := [("api", 0)] } name source
         ≠ .error .DeletedInstance) ∧
    (∀ name source r now,
       setRemainingStatic { heap := [{ name := "api", limit := 5, timeWindow := 60,
                                       deleted := false, attempts := [] }],
                            registry := [("api", 0)] } name source r now
         ≠ .error .DeletedInstance) ∧
    (∀ name,
       clearStatic { heap := [{ name := "api", limit := 5, timeWindow := 60,
                                deleted := false, attempts := [] }],
                     registry := [("api", 0)] } name
         ≠ .error .DeletedInstance) ∧
    (∀ name now,
       cleanupStatic { heap := [{ name := "api", limit := 5, timeWindow := 60,
                                  deleted := false, attempts := [] }],
                       registry := [("api", 0)] } name now
         ≠ .error .DeletedInstance) ∧
    (∀ name,
       deleteStatic { heap := [{ name := "api", limit := 5, timeWindow := 60,
                                 deleted := false, attempts := [] }],
                      registry := [("api", 0)] } name
         ≠ .error .DeletedInstance) ∧
    (∀ now, ∃ s',
       cleanupAll { heap := [{ name := "api", limit := 5, timeWindow := 60,
                               deleted := false, attempts := [] }],
                    registry := [("api", 0)] } now = .ok s') :=
  C9_registry_all_active
    { heap := [{ name := "api", limit := 5, timeWindow := 60,
                 deleted := false, attempts := [] }],
      registry := [("api", 0)] }
    (Reachable.construct Reachable.init rfl)

end RL

